import Mathlib

/-!
Shallow embedding of the `mac-recorder` speech-to-text engine core
(`engine/src/mac_recorder_engine/asr/engine.py` and
`engine/src/mac_recorder_engine/transcriber.py`).

Modelling conventions:
* Audio samples are rationals (`ℚ`); the Python code's `float32` values are
  embedded as exact rationals.
* The external `onnx_asr` library (model loading, VAD loading, and the
  `recognize` method of a loaded model) is an opaque environment `Env` of
  deterministic functions; an exception raised by the library is a `String`
  (its rendered message), wrapped in `Err.ext` when it propagates through
  the engine.  The engine's own `ValueError`s are separate constructors of
  `Err`, mirroring the fact that they are distinct exception objects.
* A Python `dict` is an insertion-ordered association list, a `set` is a
  duplicate-free list.
* Stateful methods are embedded as functions returning the result (an
  `Except`) together with the post-state, since Python mutations performed
  before an exception escapes do persist.
-/

/-- Python `str.strip()` on the character list: drop whitespace from both ends. -/
def stripChars (cs : List Char) : List Char :=
  ((cs.dropWhile Char.isWhitespace).reverse.dropWhile Char.isWhitespace).reverse

/-- Python `str.strip()`. -/
def pyStrip (s : String) : String := ⟨stripChars s.data⟩

/-- Is the first character list a prefix of the second? -/
def charPrefixCheck : List Char → List Char → Bool
  | [], _ => true
  | _ :: _, [] => false
  | a :: as, b :: bs => a == b && charPrefixCheck as bs

/-- Does the first character list occur contiguously in the second? -/
def charSubCheck (pat : List Char) : List Char → Bool
  | [] => pat.isEmpty
  | c :: rest => charPrefixCheck pat (c :: rest) || charSubCheck pat rest

/-- Python `pat in s` substring membership. -/
def strContains (s pat : String) : Bool := charSubCheck pat.data s.data

/-- Python `<=` on strings (lexicographic by code point), as a Bool. -/
def charListLe : List Char → List Char → Bool
  | [], _ => true
  | _ :: _, [] => false
  | a :: as, b :: bs => if a = b then charListLe as bs else decide (a < b)

def strLe (a b : String) : Bool := charListLe a.data b.data

/-- `engine.py` module-level message-signature constants. -/
def MODEL_PATH_EMPTY : String := "model_path must not be empty"

def INITIALIZER_SIGNATURE : String := "Initializer::Initializer"

def COREML_PROVIDER : String := "CoreMLExecutionProvider"

def COREML_RUNTIME_ERROR : String :=
  "Unable to compute the prediction using a neural network model"

/-- Errors that can escape the engine.  `ext` is an exception raised by the
external `onnx_asr` / onnxruntime code (identified by its rendered message);
the other constructors are the engine's own `ValueError`s. -/
inductive Err where
  | ext (msg : String)
  | noModelLoaded (lang : String)
  | unknownLanguage (lang : String)
  deriving DecidableEq

/-- Python `str(error)`. -/
def Err.render : Err → String
  | .ext m => m
  | .noModelLoaded l => "No model loaded for language: " ++ l
  | .unknownLanguage l => "Unknown language: " ++ l

/-- `_should_retry_with_cpu`: retry with CPU when CoreML/ORT fails to
initialize models with external data. -/
def should_retry_with_cpu (error : Err) : Bool :=
  strContains error.render MODEL_PATH_EMPTY &&
    strContains error.render INITIALIZER_SIGNATURE

/-- `_is_coreml_runtime_failure`: CoreML execution failures that should
trigger a CPU fallback. -/
def is_coreml_runtime_failure (error : Err) : Bool :=
  strContains error.render COREML_PROVIDER &&
    strContains error.render COREML_RUNTIME_ERROR

/-- An opaque recognizer returned by `onnx_asr.load_model`, possibly composed
with the VAD capability by `.with_vad(...)`. -/
inductive Model where
  | base (name : String) (cpuProviders : Bool)
  | withVad (m : Model)
  deriving DecidableEq

/-- A raw segment yielded by `model.recognize(...)`: a `text` attribute plus
optional `start` / `end` attributes (read with `getattr(seg, _, 0.0)`).
The field `stop` embeds the Python attribute `end` (a Lean keyword). -/
structure RawSeg where
  text : String
  start : Option ℚ
  stop : Option ℚ
  deriving DecidableEq

/-- `seg.text if hasattr(seg, "text") else str(seg)`; raw segments here
always carry a `text` attribute. -/
def segText (seg : RawSeg) : String := seg.text

/-- A segment dict produced by `ASREngine._run_recognition`.  The field
`stop` embeds the dict key `"end"`. -/
structure Seg where
  start : ℚ
  stop : ℚ
  text : String
  language : String
  deriving DecidableEq

/-- The deterministic external world: `onnx_asr.load_vad`,
`onnx_asr.load_model(name, providers=...)` (the Bool is whether
`providers=["CPUExecutionProvider"]` was passed), and the `recognize`
method of a (possibly VAD-wrapped) model.  A `.error` value is the rendered
message of the exception the library raised. -/
structure Env where
  load_vad : Except String Unit
  load_model : String → Bool → Except String Model
  model_recognize : Model → List ℚ → Nat → Except String (List RawSeg)

/-- The mutable fields of an `ASREngine` instance. -/
structure EngineState where
  russianModelName : String
  englishModelName : String
  language : String
  models : List (String × Model)
  cpuOnlyLanguages : List String
  deriving DecidableEq

/-- Python `dict.__setitem__`: replace in place, or append preserving
insertion order. -/
def dictInsert (d : List (String × Model)) (k : String) (v : Model) :
    List (String × Model) :=
  if d.any (fun p => p.1 == k) then
    d.map (fun p => if p.1 = k then (k, v) else p)
  else d ++ [(k, v)]

/-- Python `set.add`. -/
def setAdd (s : List String) (x : String) : List String :=
  if x ∈ s then s else s ++ [x]

/-- Python `set.discard`. -/
def setDiscard (s : List String) (x : String) : List String :=
  s.filter (fun y => y != x)

/-- `ASREngine._load_model(lang, model_name, force_cpu=...)`.
Returns the new state (or the propagated error; on error the state is
unchanged, since the Python method mutates only after a successful load)
together with the list of `onnx_asr.load_model` attempts
`(model name, CPU providers forced?)`. -/
def load_model (env : Env) (st : EngineState) (lang name : String)
    (force_cpu : Bool) : Except Err EngineState × List (String × Bool) :=
  match env.load_model name force_cpu with
  | .ok m =>
      let st1 : EngineState :=
        if force_cpu then
          { st with cpuOnlyLanguages := setAdd st.cpuOnlyLanguages lang }
        else
          { st with cpuOnlyLanguages := setDiscard st.cpuOnlyLanguages lang }
      (.ok { st1 with models := dictInsert st1.models lang (Model.withVad m) },
       [(name, force_cpu)])
  | .error e =>
      if force_cpu || !(should_retry_with_cpu (Err.ext e)) then
        (.error (.ext e), [(name, force_cpu)])
      else
        match env.load_model name true with
        | .ok m =>
            let st1 : EngineState :=
              { st with cpuOnlyLanguages := setAdd st.cpuOnlyLanguages lang }
            (.ok { st1 with models := dictInsert st1.models lang (Model.withVad m) },
             [(name, false), (name, true)])
        | .error e2 => (.error (.ext e2), [(name, false), (name, true)])

/-- `ASREngine._run_recognition`: run the model, drop segments whose
stripped text is empty, keep the stripped text, default missing
`start` / `end` attributes to `0.0`. -/
def run_recognition (env : Env) (model : Model) (audio : List ℚ)
    (sampleRate : Nat) (lang : String) : Except Err (List Seg) :=
  match env.model_recognize model audio sampleRate with
  | .error e => .error (.ext e)
  | .ok rawSegs =>
      .ok ((rawSegs.filter (fun seg => pyStrip (segText seg) != "")).map
        (fun seg =>
          { start := seg.start.getD 0, stop := seg.stop.getD 0,
            text := pyStrip (segText seg), language := lang }))

/-- The trimmed length of the text a model produces on the detection sample
(`0` both when the model raises — the error is swallowed — and when the
text strips to empty). -/
def detectScore (env : Env) (model : Model) (sample : List ℚ)
    (sampleRate : Nat) : Nat :=
  match env.model_recognize model sample sampleRate with
  | .error _ => 0
  | .ok segs => (pyStrip (String.join (segs.map segText))).length

/-- The accumulator loop of `_detect_language` over `self._models.items()`,
carrying `(best_lang, best_len)`. -/
def detectLoop (env : Env) (sample : List ℚ) (sampleRate : Nat) :
    List (String × Model) → String × Nat → String × Nat
  | [], best => best
  | (lang, model) :: rest, (bestLang, bestLen) =>
      if bestLen < detectScore env model sample sampleRate then
        detectLoop env sample sampleRate rest
          (lang, detectScore env model sample sampleRate)
      else detectLoop env sample sampleRate rest (bestLang, bestLen)

/-- `ASREngine._detect_language`: try both models on a short sample, pick
whichever produces more text. -/
def detect_language (env : Env) (st : EngineState) (audio : List ℚ)
    (sampleRate : Nat) : String :=
  (detectLoop env (audio.take (min audio.length (sampleRate * 5))) sampleRate
    st.models ("en", 0)).1

/-- `ASREngine._model_name_for_language`. -/
def model_name_for_language (st : EngineState) (lang : String) :
    Except Err String :=
  if lang = "ru" then .ok st.russianModelName
  else if lang = "en" then .ok st.englishModelName
  else .error (.unknownLanguage lang)

/-- Outcome of `ASREngine.recognize`: the returned segments or escaped
error, the post-state, the `onnx_asr.load_model` attempts made (via the
forced reload), and the models `_run_recognition` was invoked on. -/
structure RecOut where
  result : Except Err (List Seg)
  state : EngineState
  loads : List (String × Bool)
  infers : List Model

/-- The `lang = language or self._language` resolution at the top of
`ASREngine.recognize` (a `None` or empty-string argument is falsy). -/
def resolve_language (st : EngineState) (language : Option String) : String :=
  match language with
  | none => st.language
  | some l => if l = "" then st.language else l

/-- The body of `ASREngine.recognize` after the language has been resolved
to a concrete code. -/
def recognizeWith (env : Env) (st : EngineState) (audio : List ℚ)
    (sampleRate : Nat) (lang : String) : RecOut :=
  match st.models.lookup lang with
  | none => ⟨.error (.noModelLoaded lang), st, [], []⟩
  | some model =>
      match run_recognition env model audio sampleRate lang with
      | .ok segs => ⟨.ok segs, st, [], [model]⟩
      | .error e =>
          if lang ∈ st.cpuOnlyLanguages || !(is_coreml_runtime_failure e) then
            ⟨.error e, st, [], [model]⟩
          else
            match model_name_for_language st lang with
            | .error e2 => ⟨.error e2, st, [], [model]⟩
            | .ok name =>
                match load_model env st lang name true with
                | (.error e2, tr) => ⟨.error e2, st, tr, [model]⟩
                | (.ok st', tr) =>
                    match st'.models.lookup lang with
                    | none =>
                        -- Python `self._models[lang]` would raise KeyError;
                        -- provably unreachable after a successful load.
                        ⟨.error (.ext ("KeyError: " ++ lang)), st', tr, [model]⟩
                    | some model' =>
                        ⟨run_recognition env model' audio sampleRate lang,
                         st', tr, [model, model']⟩

/-- `ASREngine.recognize(audio, sample_rate, language=None)`: resolve the
language (auto-detecting when it resolves to `"auto"`), then run. -/
def recognize (env : Env) (st : EngineState) (audio : List ℚ)
    (sampleRate : Nat) (language : Option String) : RecOut :=
  if resolve_language st language = "auto" then
    recognizeWith env st audio sampleRate
      (detect_language env st audio sampleRate)
  else recognizeWith env st audio sampleRate (resolve_language st language)

/-- `ASREngine.initialize`: load VAD, then the Russian and/or English model
according to the configured language.  Returns the list of loaded model
names, with the post-state (mutations before an escaping error persist). -/
def initializeRun (env : Env) (st : EngineState) :
    Except Err (List String) × EngineState :=
  match env.load_vad with
  | .error e => (.error (.ext e), st)
  | .ok _ =>
      let step1 : Except Err (List String) × EngineState :=
        if st.language = "ru" ∨ st.language = "auto" then
          match load_model env st "ru" st.russianModelName false with
          | (.ok st', _) => (.ok [st.russianModelName], st')
          | (.error e, _) => (.error e, st)
        else (.ok [], st)
      match step1 with
      | (.error e, st') => (.error e, st')
      | (.ok loaded, st') =>
          if st.language = "en" ∨ st.language = "auto" then
            match load_model env st' "en" st'.englishModelName false with
            | (.ok st'', _) => (.ok (loaded ++ [st'.englishModelName]), st'')
            | (.error e, _) => (.error e, st')
          else (.ok loaded, st')

/-- `ASREngine.set_language`: change active language, lazily loading the
needed model(s). -/
def set_language (env : Env) (st : EngineState) (language : String) :
    Except Err Unit × EngineState :=
  let st := { st with language := language }
  if language = "ru" ∧ (st.models.lookup "ru").isNone then
    match load_model env st "ru" st.russianModelName false with
    | (.ok st', _) => (.ok (), st')
    | (.error e, _) => (.error e, st)
  else if language = "en" ∧ (st.models.lookup "en").isNone then
    match load_model env st "en" st.englishModelName false with
    | (.ok st', _) => (.ok (), st')
    | (.error e, _) => (.error e, st)
  else if language = "auto" then
    let after_ru : Except Err Unit × EngineState :=
      if (st.models.lookup "ru").isNone then
        match load_model env st "ru" st.russianModelName false with
        | (.ok st', _) => (.ok (), st')
        | (.error e, _) => (.error e, st)
      else (.ok (), st)
    match after_ru with
    | (.error e, st') => (.error e, st')
    | (.ok _, st') =>
        if (st'.models.lookup "en").isNone then
          match load_model env st' "en" st'.englishModelName false with
          | (.ok st'', _) => (.ok (), st'')
          | (.error e, _) => (.error e, st')
        else (.ok (), st')
  else (.ok (), st)

/-- A public engine operation, for the lifecycle claims. -/
inductive Op where
  | initOp
  | recognizeOp (audio : List ℚ) (sampleRate : Nat) (language : Option String)
  | setLanguageOp (language : String)

/-- The engine state after running one operation (whether or not it
raised). -/
def step (env : Env) (st : EngineState) : Op → EngineState
  | .initOp => (initializeRun env st).2
  | .recognizeOp audio rate language => (recognize env st audio rate language).state
  | .setLanguageOp l => (set_language env st l).2

/-- The engine state after a sequence of operations. -/
def steps (env : Env) (st : EngineState) (ops : List Op) : EngineState :=
  ops.foldl (step env) st

/-! ## Transcriber (`transcriber.py`) -/

/-- `transcriber.py` source-label constants. -/
def MIC_SOURCE : String := "mic/speak"

def SPEAKER_SOURCE : String := "speaker/speak"

/-- A decoded audio buffer.  A 2-D `(frames, channels)` numpy array is
embedded channel-major: `multi chs` holds one sample list per channel, all
of equal length for a rectangular (genuinely decoded) buffer. -/
inductive AudioBuf where
  | mono (samples : List ℚ)
  | multi (channels : List (List ℚ))
  deriving DecidableEq

/-- `len(audio)`: the number of frames (rows). -/
def AudioBuf.frames : AudioBuf → Nat
  | .mono s => s.length
  | .multi chs => (chs.head?.map List.length).getD 0

/-- `np.linspace(a, b, n)`. -/
def linspace (a b : ℚ) (n : Nat) : List ℚ :=
  if n = 0 then []
  else if n = 1 then [a]
  else List.map (fun i : ℕ => a + (b - a) * (i : ℚ) / ((n : ℚ) - 1)) (List.range n)

/-- `np.interp(q, np.arange(len(fp)), fp)`: clamp outside `[0, len-1]`,
linearly interpolate between the two neighbouring samples inside. -/
def interpAt (fp : List ℚ) (q : ℚ) : ℚ :=
  match fp with
  | [] => 0  -- numpy raises on empty fp; unreachable (new_length = 0 then)
  | f0 :: _ =>
      if q ≤ 0 then f0
      else if (fp.length : ℚ) - 1 ≤ q then (fp.getLast?).getD 0
      else
        let i : Nat := ⌊q⌋.toNat
        let x0 := fp.getD i 0
        let x1 := fp.getD (i + 1) 0
        x0 + (q - (i : ℚ)) * (x1 - x0)

/-- `_resample_to_16k`.  Float arithmetic is embedded exactly over `ℚ`;
Python's `int(len(audio) * ratio)` truncates the non-negative product, i.e.
takes the floor, which on naturals is `(L * 16000) / sampleRate`. -/
def resample_to_16k (audio : AudioBuf) (sampleRate : Nat) : AudioBuf × Nat :=
  if sampleRate = 16000 then (audio, sampleRate)
  else
    let L := audio.frames
    let newLength : Nat := L * 16000 / sampleRate
    let indices := linspace 0 ((L : ℚ) - 1) newLength
    match audio with
    | .mono s => (.mono (indices.map (interpAt s)), 16000)
    | .multi chs =>
        (.multi (chs.map (fun ch => indices.map (interpAt ch))), 16000)

/-- A segment dict returned by `transcribe`: an engine segment plus an
optional `"source"` key.  The field `stop` embeds the dict key `"end"`. -/
structure TSeg where
  start : ℚ
  stop : ℚ
  text : String
  language : String
  source : Option String
  deriving DecidableEq

/-- `_with_source`: tag each segment with a source label. -/
def with_source (segs : List Seg) (source : String) : List TSeg :=
  segs.map (fun s => ⟨s.start, s.stop, s.text, s.language, some source⟩)

/-- Mono-path segments, which carry no `"source"` key. -/
def noSource (segs : List Seg) : List TSeg :=
  segs.map (fun s => ⟨s.start, s.stop, s.text, s.language, none⟩)

/-- The sort key of `transcribe`'s stereo merge:
`(seg.get("start", 0.0), seg.get("end", 0.0), seg.get("source", ""))`,
compared as Python compares tuples.  Total Bool-valued `≤` suitable for a
stable merge sort. -/
def tsegLe (a b : TSeg) : Bool :=
  if a.start ≠ b.start then decide (a.start < b.start)
  else if a.stop ≠ b.stop then decide (a.stop < b.stop)
  else strLe (a.source.getD "") (b.source.getD "")

/-- Outcome of `transcribe` after the audio file has been decoded into a
buffer: the `(segments, full_text)` pair or the escaped error, plus whether
the more-than-two-channels warning was logged. -/
structure TranscribeOut where
  result : Except Err (List TSeg × String)
  warnedExtraChannels : Bool

/-- The stereo arm of `transcribe`: recognize the mic channel, then the
speaker channel (with the engine state the first call left behind), tag
each side with its source label, merge and sort; `warn` records whether
the more-than-two-channels warning was logged on entry to this arm. -/
def stereoRun (env : Env) (st : EngineState) (micAudio speakerAudio : List ℚ)
    (sampleRate : Nat) (warn : Bool) : TranscribeOut :=
  let r1 := recognize env st micAudio sampleRate none
  match r1.result with
  | .error e => ⟨.error e, warn⟩
  | .ok segs1 =>
      let r2 := recognize env r1.state speakerAudio sampleRate none
      match r2.result with
      | .error e => ⟨.error e, warn⟩
      | .ok segs2 =>
          let merged :=
            (with_source segs1 MIC_SOURCE ++
              with_source segs2 SPEAKER_SOURCE).mergeSort tsegLe
          ⟨.ok (merged,
             String.intercalate " " (merged.map (fun s => s.text))), warn⟩

/-- `transcribe`, from the point where the decoded `(audio, sample_rate)`
is in hand: resample to 16 kHz, build and initialize an engine, recognize
either the mono buffer or each of the first two channels, merge. -/
def transcribeRun (env : Env) (audio0 : AudioBuf) (sampleRate0 : Nat)
    (language russianModel englishModel : String) : TranscribeOut :=
  let rs := resample_to_16k audio0 sampleRate0
  let audio := rs.1
  let sampleRate := rs.2
  let st0 : EngineState := ⟨russianModel, englishModel, language, [], []⟩
  match initializeRun env st0 with
  | (.error e, _) => ⟨.error e, false⟩
  | (.ok _, st) =>
      match audio with
      | .mono samples =>
          match (recognize env st samples sampleRate none).result with
          | .error e => ⟨.error e, false⟩
          | .ok segs =>
              let tsegs := noSource segs
              ⟨.ok (tsegs, String.intercalate " " (tsegs.map (fun s => s.text))),
               false⟩
      | .multi chs =>
          match chs with
          | [ch] =>
              -- `np.squeeze` of a single-channel buffer: mono recognition
              match (recognize env st ch sampleRate none).result with
              | .error e => ⟨.error e, false⟩
              | .ok segs =>
                  let tsegs := noSource segs
                  ⟨.ok (tsegs,
                     String.intercalate " " (tsegs.map (fun s => s.text))),
                   false⟩
          | _ =>
              -- `audio[:, 0]` / `audio[:, 1]`; a zero-channel buffer would
              -- raise IndexError in Python and cannot come from a decoder.
              stereoRun env st (chs.getD 0 []) (chs.getD 1 []) sampleRate
                (decide (2 < chs.length))

/-- Modelled from the spec (§4.3 / §8): the resampled length the spec
prescribes, `round(old_length * target_rate / old_rate)`, with Python's
banker's rounding (`round` ties go to the even integer). -/
def pyRound (q : ℚ) : ℤ :=
  let f := ⌊q⌋
  if q - f < 1/2 then f
  else if (1 : ℚ)/2 < q - f then f + 1
  else if f % 2 = 0 then f else f + 1

/-- Modelled from the spec: the buffer length §4.3 claims resampling
produces for a buffer of `L` frames at rate `R ≠ 16000`. -/
def specResampledLength (L R : Nat) : ℤ := pyRound ((L * 16000 : ℚ) / R)

/-! ## Helper lemmas -/

theorem dropWhile_eq_self_of_head? {α : Type} (p : α → Bool) (l : List α)
    (h : ∀ a ∈ l.head?, p a = false) : l.dropWhile p = l := by
  cases l with
  | nil => rfl
  | cons a t =>
      simp only [List.dropWhile_cons]
      rw [h a (by simp)]
      simp

theorem stripChars_head? (cs : List Char) :
    ∀ a ∈ (stripChars cs).head?, a.isWhitespace = false := by
  intro a ha
  unfold stripChars at ha
  set d := cs.dropWhile Char.isWhitespace with hd
  have hsuf : d.reverse.dropWhile Char.isWhitespace <:+ d.reverse :=
    List.dropWhile_suffix _
  obtain ⟨pre, hpre⟩ := hsuf
  have hrev : (d.reverse.dropWhile Char.isWhitespace).reverse ++ pre.reverse = d := by
    have := congrArg List.reverse hpre
    simpa [List.reverse_append] using this
  rcases hcase : (d.reverse.dropWhile Char.isWhitespace).reverse with _ | ⟨b, t⟩
  · rw [hcase] at ha; simp at ha
  · have hbd : d.head? = some b := by
      rw [← hrev, hcase]; simp
    have := List.head?_dropWhile_not Char.isWhitespace cs
    rw [← hd] at this
    rw [hbd] at this
    rw [hcase] at ha
    simp only [List.head?_cons, Option.mem_def, Option.some.injEq] at ha
    rw [ha] at this
    exact this

theorem stripChars_getLast?' (cs : List Char) :
    ∀ a ∈ (stripChars cs).reverse.head?, a.isWhitespace = false := by
  intro a ha
  unfold stripChars at ha
  rw [List.reverse_reverse] at ha
  have := List.head?_dropWhile_not Char.isWhitespace
    ((cs.dropWhile Char.isWhitespace).reverse)
  rcases h : ((cs.dropWhile Char.isWhitespace).reverse.dropWhile
      Char.isWhitespace).head? with _ | b
  · rw [h] at ha; simp at ha
  · rw [h] at this ha
    simp at ha
    simpa [ha] using this

theorem stripChars_idem (cs : List Char) :
    stripChars (stripChars cs) = stripChars cs := by
  have h1 : (stripChars cs).dropWhile Char.isWhitespace = stripChars cs :=
    dropWhile_eq_self_of_head? _ _ (stripChars_head? cs)
  have h2 : (stripChars cs).reverse.dropWhile Char.isWhitespace =
      (stripChars cs).reverse :=
    dropWhile_eq_self_of_head? _ _ (stripChars_getLast?' cs)
  show ((((stripChars cs).dropWhile Char.isWhitespace).reverse.dropWhile
      Char.isWhitespace)).reverse = stripChars cs
  rw [h1, h2, List.reverse_reverse]

theorem pyStrip_idem (s : String) : pyStrip (pyStrip s) = pyStrip s := by
  show (⟨stripChars (stripChars s.data)⟩ : String) = ⟨stripChars s.data⟩
  rw [stripChars_idem]

theorem mem_setAdd_self (s : List String) (x : String) : x ∈ setAdd s x := by
  unfold setAdd; split
  · assumption
  · simp

theorem mem_setAdd_of_mem {s : List String} {y : String} (x : String)
    (h : y ∈ s) : y ∈ setAdd s x := by
  unfold setAdd; split
  · exact h
  · simp [h]

theorem mem_setDiscard {s : List String} {x y : String} :
    y ∈ setDiscard s x ↔ y ∈ s ∧ y ≠ x := by
  unfold setDiscard
  simp [List.mem_filter, bne_iff_ne]

theorem lookup_dictInsert_self (d : List (String × Model)) (k : String)
    (v : Model) : (dictInsert d k v).lookup k = some v := by
  unfold dictInsert
  split
  · rename_i h
    induction d with
    | nil => simp at h
    | cons p rest ih =>
        simp only [List.any_cons, Bool.or_eq_true, beq_iff_eq] at h
        by_cases hp : p.1 = k
        · rw [List.map_cons, if_pos hp]
          exact List.lookup_cons_self
        · have hrest : rest.any (fun p => p.1 == k) = true := by
            rcases h with h | h
            · exact absurd h hp
            · exact h
          simp only [List.map_cons, if_neg hp]
          rw [List.lookup_cons, show (k == p.1) = false by simpa using Ne.symm hp]
          exact ih hrest
  · rw [List.lookup_append]
    rcases hl : d.lookup k with _ | w
    · simp
    · rename_i h
      exfalso
      rw [List.lookup_eq_some_iff] at hl
      rcases hl with ⟨l₁, l₂, hd, -⟩
      apply h
      rw [hd]
      simp

theorem length_linspace (a b : ℚ) (n : Nat) : (linspace a b n).length = n := by
  unfold linspace
  split
  · simp [*]
  · split
    · simp [*]
    · rw [List.length_map, List.length_range]

/-! ## C1: CPU fallback on model load -/

/-- C1: for a model load with `forceCpu = false`, an error matching the
external-data-path signature causes exactly one retry with CPU-only
providers; on retry success the language is marked CPU-only, on retry
failure the retry's error propagates.  If `forceCpu` is already true, or
the error does not match the signature, the original error propagates with
no retry (a single load attempt). -/
theorem C1_load_cpu_fallback (env : Env) (st : EngineState)
    (lang name : String) :
    (∀ e m, env.load_model name false = .error e →
      should_retry_with_cpu (Err.ext e) = true →
      env.load_model name true = .ok m →
      (load_model env st lang name false).2 = [(name, false), (name, true)] ∧
      ∃ st', (load_model env st lang name false).1 = .ok st' ∧
        lang ∈ st'.cpuOnlyLanguages) ∧
    (∀ e e2, env.load_model name false = .error e →
      should_retry_with_cpu (Err.ext e) = true →
      env.load_model name true = .error e2 →
      (load_model env st lang name false).1 = .error (.ext e2) ∧
      (load_model env st lang name false).2 = [(name, false), (name, true)]) ∧
    (∀ e, env.load_model name false = .error e →
      should_retry_with_cpu (Err.ext e) = false →
      (load_model env st lang name false).1 = .error (.ext e) ∧
      (load_model env st lang name false).2 = [(name, false)]) ∧
    (∀ e, env.load_model name true = .error e →
      (load_model env st lang name true).1 = .error (.ext e) ∧
      (load_model env st lang name true).2 = [(name, true)]) := by
  refine ⟨?_, ?_, ?_, ?_⟩
  · intro e m h1 hsig h2
    simp only [load_model, h1, h2, hsig, Bool.not_true, Bool.false_or,
      Bool.or_false, if_false]
    exact ⟨rfl, _, rfl, mem_setAdd_self _ _⟩
  · intro e e2 h1 hsig h2
    simp only [load_model, h1, h2, hsig, Bool.not_true, Bool.false_or,
      Bool.or_false, if_false]
    exact ⟨rfl, rfl⟩
  · intro e h1 hsig
    simp only [load_model, h1, hsig, Bool.not_false, Bool.false_or, if_true]
    exact ⟨by simp, by simp⟩
  · intro e h1
    simp only [load_model, h1, Bool.true_or, if_true]
    exact ⟨by simp, by simp⟩

/-- A load environment whose default-provider load fails with the
external-data-path signature and whose CPU-only load succeeds. -/
def envExternalData : Env where
  load_vad := .ok ()
  load_model := fun name cpu =>
    if cpu then .ok (Model.base name true)
    else .error
      "Initializer::Initializer ... model_path must not be empty. Ensure that a path is provided."
  model_recognize := fun _ _ _ => .ok []

/-- An engine state as constructed by `ASREngine.__init__` with the default
model names and `language="en"`. -/
def stInitEn : EngineState :=
  ⟨"gigaam-v3-rnnt", "whisper-base", "en", [], []⟩

theorem C1_witness :
    (load_model envExternalData stInitEn "en" "whisper-base" false).2 =
        [("whisper-base", false), ("whisper-base", true)] ∧
      ∃ st', (load_model envExternalData stInitEn "en" "whisper-base" false).1 =
          .ok st' ∧ "en" ∈ st'.cpuOnlyLanguages :=
  (C1_load_cpu_fallback envExternalData stInitEn "en" "whisper-base").1
    _ (Model.base "whisper-base" true) rfl (by decide) rfl

/-! ## C3: resampling to 16 kHz -/

/-- Observation of one channel of a buffer (`audio[:, c]`; for a mono
buffer, channel 0 is the buffer itself). -/
def AudioBuf.channel (a : AudioBuf) (c : Nat) : List ℚ :=
  match a with
  | .mono s => if c = 0 then s else []
  | .multi chs => chs.getD c []

theorem getD_map_channels (f : List ℚ → List ℚ) (l : List (List ℚ))
    (c : Nat) (h : c < l.length) :
    (l.map f).getD c [] = f (l.getD c []) := by
  induction l generalizing c with
  | nil => simp at h
  | cons x xs ih =>
      cases c with
      | zero => simp [List.getD]
      | succ c =>
          simp only [List.map_cons]
          have hc : c < xs.length := by simpa using h
          simpa [List.getD] using ih c hc

/-- C3 counterexample: for a 3-sample mono buffer at 32000 Hz the code
produces `int(3 * 16000 / 32000) = int(1.5) = 1` output sample, while the
claim's `round(3 * 16000 / 32000) = round(1.5) = 2` (Python banker's
rounding) differs. -/
theorem C3_counterexample :
    ((resample_to_16k (AudioBuf.mono [0, 0, 0]) 32000).1.frames : ℤ) ≠
      specResampledLength 3 32000 := by
  have hl : (resample_to_16k (AudioBuf.mono [0, 0, 0]) 32000).1.frames = 1 := rfl
  have hq : (((3 : ℕ) : ℚ) * 16000 / ((32000 : ℕ) : ℚ)) = 3 / 2 := by
    push_cast; norm_num
  have hf : ⌊(3 / 2 : ℚ)⌋ = 1 := by rw [Int.floor_eq_iff]; norm_num
  have hr : specResampledLength 3 32000 = 2 := by
    simp only [specResampledLength, pyRound, hq, hf]
    norm_num
  rw [hl, hr]
  decide

/-- C3 (amended): resampling at 16000 Hz returns the buffer unchanged;
at any other rate it returns a 16000 Hz buffer whose per-channel length is
the TRUNCATED `⌊L * 16000 / R⌋` (not the rounded value), each channel
obtained independently by linear interpolation of that channel at
`newLength` evenly spaced query positions over `[0, L-1]`. -/
theorem C3_resample_truncates (audio : AudioBuf) (sampleRate : Nat) :
    (sampleRate = 16000 → resample_to_16k audio sampleRate = (audio, 16000)) ∧
    (sampleRate ≠ 16000 →
      (resample_to_16k audio sampleRate).2 = 16000 ∧
      (∀ s, audio = .mono s →
        (resample_to_16k audio sampleRate).1 =
          .mono ((linspace 0 ((s.length : ℚ) - 1)
            (s.length * 16000 / sampleRate)).map (interpAt s)) ∧
        (resample_to_16k audio sampleRate).1.frames =
          s.length * 16000 / sampleRate) ∧
      (∀ chs, audio = .multi chs → ∀ c, c < chs.length →
        (resample_to_16k audio sampleRate).1.channel c =
          (linspace 0 ((audio.frames : ℚ) - 1)
            (audio.frames * 16000 / sampleRate)).map
              (interpAt (chs.getD c [])))) := by
  constructor
  · intro h
    subst h
    simp [resample_to_16k]
  · intro h
    refine ⟨?_, ?_, ?_⟩
    · simp only [resample_to_16k, if_neg h]
      cases audio <;> rfl
    · intro s hs
      subst hs
      simp only [resample_to_16k, if_neg h]
      exact ⟨rfl, by simp [AudioBuf.frames, length_linspace]⟩
    · intro chs hchs c hc
      subst hchs
      simp only [resample_to_16k, if_neg h, AudioBuf.channel]
      exact getD_map_channels _ chs c hc

theorem C3_witness :
    (resample_to_16k (AudioBuf.mono [1, 2, 3]) 48000).1.frames = 1 := by
  have h := ((C3_resample_truncates (AudioBuf.mono [1, 2, 3]) 48000).2
    (by decide)).2.1 [1, 2, 3] rfl
  simpa using h.2

/-! ## C2: CPU fallback on inference -/

theorem model_name_ok_lang {st : EngineState} {lang name : String}
    (h : model_name_for_language st lang = .ok name) :
    lang = "ru" ∨ lang = "en" := by
  by_cases h1 : lang = "ru"
  · exact Or.inl h1
  · by_cases h2 : lang = "en"
    · exact Or.inr h2
    · unfold model_name_for_language at h
      rw [if_neg h1, if_neg h2] at h
      cases h

/-- C2: on an inference error matching the accelerated-runtime signature
with the language not yet CPU-only, the model is reloaded exactly once with
CPU forced and inference retried exactly once, returning the retry's
outcome (the language becoming CPU-only); a reload failure propagates.
If the language is already CPU-only, or the signature does not match, the
error propagates with no reload and no retry. -/
theorem C2_inference_cpu_fallback (env : Env) (st : EngineState)
    (audio : List ℚ) (sampleRate : Nat) (lang name : String) (model : Model)
    (hlookup : st.models.lookup lang = some model)
    (hname : model_name_for_language st lang = .ok name) :
    (∀ e m, env.model_recognize model audio sampleRate = .error e →
      is_coreml_runtime_failure (Err.ext e) = true →
      lang ∉ st.cpuOnlyLanguages →
      env.load_model name true = .ok m →
      (recognize env st audio sampleRate (some lang)).loads = [(name, true)] ∧
      (recognize env st audio sampleRate (some lang)).infers =
        [model, Model.withVad m] ∧
      (recognize env st audio sampleRate (some lang)).result =
        run_recognition env (Model.withVad m) audio sampleRate lang ∧
      lang ∈ (recognize env st audio sampleRate (some lang)).state.cpuOnlyLanguages) ∧
    (∀ e e2, env.model_recognize model audio sampleRate = .error e →
      is_coreml_runtime_failure (Err.ext e) = true →
      lang ∉ st.cpuOnlyLanguages →
      env.load_model name true = .error e2 →
      (recognize env st audio sampleRate (some lang)).result = .error (.ext e2) ∧
      (recognize env st audio sampleRate (some lang)).infers = [model]) ∧
    (∀ e, lang ∈ st.cpuOnlyLanguages →
      env.model_recognize model audio sampleRate = .error e →
      (recognize env st audio sampleRate (some lang)).result = .error (.ext e) ∧
      (recognize env st audio sampleRate (some lang)).loads = [] ∧
      (recognize env st audio sampleRate (some lang)).infers = [model]) ∧
    (∀ e, is_coreml_runtime_failure (Err.ext e) = false →
      env.model_recognize model audio sampleRate = .error e →
      (recognize env st audio sampleRate (some lang)).result = .error (.ext e) ∧
      (recognize env st audio sampleRate (some lang)).loads = [] ∧
      (recognize env st audio sampleRate (some lang)).infers = [model]) := by
  have hlang : lang = "ru" ∨ lang = "en" := model_name_ok_lang hname
  have hne1 : lang ≠ "" := by rcases hlang with h | h <;> subst h <;> decide
  have hne2 : lang ≠ "auto" := by rcases hlang with h | h <;> subst h <;> decide
  refine ⟨?_, ?_, ?_, ?_⟩
  · intro e m hrec hsig hcpu hload
    have hc : decide (lang ∈ st.cpuOnlyLanguages) = false := decide_eq_false hcpu
    simp [recognize, resolve_language, recognizeWith, hne1, hne2, hlookup,
      run_recognition, hrec, hsig, hc, hcpu, hname, load_model, hload,
      lookup_dictInsert_self, mem_setAdd_self]
  · intro e e2 hrec hsig hcpu hload
    have hc : decide (lang ∈ st.cpuOnlyLanguages) = false := decide_eq_false hcpu
    simp [recognize, resolve_language, recognizeWith, hne1, hne2, hlookup,
      run_recognition, hrec, hsig, hc, hcpu, hname, load_model, hload]
  · intro e hcpu hrec
    have hc : decide (lang ∈ st.cpuOnlyLanguages) = true := decide_eq_true hcpu
    simp [recognize, resolve_language, recognizeWith, hne1, hne2, hlookup,
      run_recognition, hrec, hc, hcpu]
  · intro e hsig hrec
    simp [recognize, resolve_language, recognizeWith, hne1, hne2, hlookup,
      run_recognition, hrec, hsig]

/-- The stored (VAD-wrapped) Russian model whose inference fails on the
accelerated provider. -/
def mCoreml : Model := Model.withVad (Model.base "gigaam-v3-rnnt" false)

/-- An environment whose stored model raises the CoreML runtime-failure
signature during inference, and whose loads always succeed. -/
def envCoreml : Env where
  load_vad := .ok ()
  load_model := fun name cpu => .ok (Model.base name cpu)
  model_recognize := fun m _ _ =>
    if m = mCoreml then
      .error "CoreMLExecutionProvider ... Unable to compute the prediction using a neural network model (error code: -1)."
    else .ok [⟨"ok", some 0, some 1⟩]

/-- An engine with the Russian model loaded (accelerated) and active. -/
def stCoreml : EngineState :=
  ⟨"gigaam-v3-rnnt", "whisper-base", "ru", [("ru", mCoreml)], []⟩

theorem C2_witness :
    (recognize envCoreml stCoreml [0] 16000 (some "ru")).loads =
        [("gigaam-v3-rnnt", true)] ∧
      (recognize envCoreml stCoreml [0] 16000 (some "ru")).infers =
        [mCoreml, Model.withVad (Model.base "gigaam-v3-rnnt" true)] ∧
      (recognize envCoreml stCoreml [0] 16000 (some "ru")).result =
        run_recognition envCoreml (Model.withVad (Model.base "gigaam-v3-rnnt" true))
          [0] 16000 "ru" ∧
      "ru" ∈ (recognize envCoreml stCoreml [0] 16000 (some "ru")).state.cpuOnlyLanguages :=
  (C2_inference_cpu_fallback envCoreml stCoreml [0] 16000 "ru" "gigaam-v3-rnnt"
      mCoreml rfl rfl).1 _ (Model.base "gigaam-v3-rnnt" true) rfl (by decide)
    (by decide) rfl

/-! ## C7: the "no model loaded" error -/

theorem run_recognition_error_ext {env : Env} {m : Model} {a : List ℚ}
    {r : Nat} {l : String} {e : Err}
    (h : run_recognition env m a r l = .error e) : ∃ msg, e = .ext msg := by
  unfold run_recognition at h
  rcases henv : env.model_recognize m a r with msg | segs <;>
    simp only [henv] at h
  · have h' : (Except.error (Err.ext msg) : Except Err (List Seg)) =
        Except.error e := h
    injection h' with h'
    exact ⟨msg, h'.symm⟩
  · exact Except.noConfusion h

theorem model_name_error {st : EngineState} {lang : String} {e : Err}
    (h : model_name_for_language st lang = .error e) :
    e = .unknownLanguage lang := by
  unfold model_name_for_language at h
  by_cases h1 : lang = "ru"
  · rw [if_pos h1] at h
    exact Except.noConfusion h
  · rw [if_neg h1] at h
    by_cases h2 : lang = "en"
    · rw [if_pos h2] at h
      exact Except.noConfusion h
    · rw [if_neg h2] at h
      injection h with h
      exact h.symm

theorem load_model_error_ext {env : Env} {st : EngineState}
    {lang name : String} {fc : Bool} {e : Err}
    (h : (load_model env st lang name fc).1 = .error e) :
    ∃ msg, e = .ext msg := by
  unfold load_model at h
  rcases h1 : env.load_model name fc with msg | m <;> simp only [h1] at h
  · by_cases hc : (fc || !(should_retry_with_cpu (Err.ext msg))) = true
    · rw [if_pos hc] at h
      have h' : (Except.error (Err.ext msg) : Except Err EngineState) =
          Except.error e := h
      injection h' with h'
      exact ⟨msg, h'.symm⟩
    · rw [if_neg hc] at h
      rcases h2 : env.load_model name true with msg2 | m2 <;>
        simp only [h2] at h
      · have h' : (Except.error (Err.ext msg2) : Except Err EngineState) =
            Except.error e := h
        injection h' with h'
        exact ⟨msg2, h'.symm⟩
      · exact Except.noConfusion h
  · exact Except.noConfusion h

theorem load_model_ok_models {env : Env} {st : EngineState}
    {lang name : String} {fc : Bool} {st' : EngineState}
    (h : (load_model env st lang name fc).1 = .ok st') :
    ∃ m, st'.models = dictInsert st.models lang (Model.withVad m) := by
  unfold load_model at h
  rcases h1 : env.load_model name fc with msg | m <;> simp only [h1] at h
  · by_cases hc : (fc || !(should_retry_with_cpu (Err.ext msg))) = true
    · rw [if_pos hc] at h
      exact Except.noConfusion h
    · rw [if_neg hc] at h
      rcases h2 : env.load_model name true with msg2 | m2 <;>
        simp only [h2] at h
      · exact Except.noConfusion h
      · injection h with h
        exact ⟨m2, by rw [← h]⟩
  · injection h with h
    refine ⟨m, ?_⟩
    rw [← h]
    show dictInsert
      ((if fc = true then
          { st with cpuOnlyLanguages := setAdd st.cpuOnlyLanguages lang }
        else
          { st with cpuOnlyLanguages := setDiscard st.cpuOnlyLanguages lang } :
        EngineState)).models lang (Model.withVad m) =
      dictInsert st.models lang (Model.withVad m)
    split <;> rfl

theorem recognize_no_noModel_of_lookup_some {env : Env} {st : EngineState}
    {audio : List ℚ} {sampleRate : Nat} {lang : String} {model : Model}
    (hlookup : st.models.lookup lang = some model)
    (hne1 : lang ≠ "") (hne2 : lang ≠ "auto") :
    ∀ l', (recognize env st audio sampleRate (some lang)).result ≠
      .error (.noModelLoaded l') := by
  intro l' hcontra
  simp only [recognize, resolve_language, recognizeWith, hne1, if_false,
    hne2, if_neg, hlookup] at hcontra
  rcases hr : run_recognition env model audio sampleRate lang with e | segs <;>
    simp only [hr] at hcontra
  · obtain ⟨msg, rfl⟩ := run_recognition_error_ext hr
    split at hcontra
    · simp at hcontra
    · rcases hn : model_name_for_language st lang with e2 | name <;>
        simp only [hn] at hcontra
      · have he2 := model_name_error hn
        subst he2
        simp at hcontra
      · rcases hld : load_model env st lang name true with ⟨res, tr⟩
        rcases res with e2 | st'
        · obtain ⟨msg2, rfl⟩ := load_model_error_ext
            (show (load_model env st lang name true).1 = .error e2 by
              rw [hld])
          simp only [hld] at hcontra
          simp at hcontra
        · simp only [hld] at hcontra
          rcases hlk : st'.models.lookup lang with _ | model' <;>
            simp only [hlk] at hcontra
          · simp at hcontra
          · obtain ⟨msg3, hmsg3⟩ := run_recognition_error_ext hcontra
            exact Err.noConfusion hmsg3
  · exact Except.noConfusion hcontra

/-- C7: recognize raises the distinct "no model loaded for language" error
exactly when the resolved language has no stored model (never an error for
a different language, never a silent default); and any successful load
stores the model wrapped with the VAD capability, so a load followed by a
recognize on that language never fails with the "no model loaded" error. -/
theorem C7_no_model_error (env : Env) (st : EngineState) (audio : List ℚ)
    (sampleRate : Nat) (lang : String)
    (hne1 : lang ≠ "") (hne2 : lang ≠ "auto") :
    ((recognize env st audio sampleRate (some lang)).result =
        .error (.noModelLoaded lang) ↔ st.models.lookup lang = none) ∧
    (∀ l', (recognize env st audio sampleRate (some lang)).result =
        .error (.noModelLoaded l') →
      l' = lang ∧ st.models.lookup lang = none) ∧
    (∀ name fc st', (load_model env st lang name fc).1 = .ok st' →
      (∃ m, st'.models.lookup lang = some (Model.withVad m)) ∧
      ∀ l', (recognize env st' audio sampleRate (some lang)).result ≠
        .error (.noModelLoaded l')) := by
  have hnone : st.models.lookup lang = none →
      (recognize env st audio sampleRate (some lang)).result =
        .error (.noModelLoaded lang) := by
    intro h
    simp [recognize, resolve_language, recognizeWith, hne1, hne2, h]
  refine ⟨⟨?_, hnone⟩, ?_, ?_⟩
  · intro h
    rcases hl : st.models.lookup lang with _ | model
    · rfl
    · exact absurd h (recognize_no_noModel_of_lookup_some hl hne1 hne2 lang)
  · intro l' h
    rcases hl : st.models.lookup lang with _ | model
    · have h2 := (hnone hl).symm.trans h
      injection h2 with h3
      injection h3 with h4
      exact ⟨h4.symm, rfl⟩
    · exact absurd h (recognize_no_noModel_of_lookup_some hl hne1 hne2 l')
  · intro name fc st' hok
    obtain ⟨m, hm⟩ := load_model_ok_models hok
    have hlk : st'.models.lookup lang = some (Model.withVad m) := by
      rw [hm]
      exact lookup_dictInsert_self _ _ _
    exact ⟨⟨m, hlk⟩, recognize_no_noModel_of_lookup_some hlk hne1 hne2⟩

theorem C7_witness :
    (recognize envCoreml stInitEn [] 16000 (some "ru")).result =
      .error (.noModelLoaded "ru") :=
  ((C7_no_model_error envCoreml stInitEn [] 16000 "ru" (by decide)
      (by decide)).1).mpr rfl

/-! ## C6: language auto-detection -/

/-- The detection sample: the first `min(len(audio), sample_rate * 5)`
samples. -/
def detectSample (audio : List ℚ) (sampleRate : Nat) : List ℚ :=
  audio.take (min audio.length (sampleRate * 5))

theorem detect_language_eq (env : Env) (st : EngineState) (audio : List ℚ)
    (sampleRate : Nat) :
    detect_language env st audio sampleRate =
      (detectLoop env (detectSample audio sampleRate) sampleRate st.models
        ("en", 0)).1 := rfl

theorem detectLoop_cons (env : Env) (sample : List ℚ) (sampleRate : Nat)
    (pl : String) (pm : Model) (r : List (String × Model)) (bl : String)
    (n : Nat) :
    detectLoop env sample sampleRate ((pl, pm) :: r) (bl, n) =
      if n < detectScore env pm sample sampleRate then
        detectLoop env sample sampleRate r
          (pl, detectScore env pm sample sampleRate)
      else detectLoop env sample sampleRate r (bl, n) := rfl

theorem detectLoop_all_le (env : Env) (sample : List ℚ) (sampleRate : Nat) :
    ∀ (l : List (String × Model)) (bl : String) (n : Nat),
      (∀ p ∈ l, detectScore env p.2 sample sampleRate ≤ n) →
      detectLoop env sample sampleRate l (bl, n) = (bl, n) := by
  intro l
  induction l with
  | nil => intro bl n _; rfl
  | cons p rest ih =>
      intro bl n h
      rcases p with ⟨plang, pm⟩
      have hp : detectScore env pm sample sampleRate ≤ n :=
        h (plang, pm) (by simp)
      rw [detectLoop_cons, if_neg (by omega)]
      exact ih bl n (fun q hq => h q (by simp [hq]))

theorem detectLoop_mem (env : Env) (sample : List ℚ) (sampleRate : Nat) :
    ∀ (l : List (String × Model)) (bl : String) (n : Nat),
      (detectLoop env sample sampleRate l (bl, n)).1 = bl ∨
        (detectLoop env sample sampleRate l (bl, n)).1 ∈ l.map Prod.fst := by
  intro l
  induction l with
  | nil => intro bl n; exact Or.inl rfl
  | cons p rest ih =>
      intro bl n
      rcases p with ⟨plang, pm⟩
      rw [detectLoop_cons]
      split
      · rcases ih plang (detectScore env pm sample sampleRate) with h | h
        · exact Or.inr (by simp [h])
        · exact Or.inr (by simp [h])
      · rcases ih bl n with h | h
        · exact Or.inl h
        · exact Or.inr (by simp [h])

theorem detectLoop_append (env : Env) (sample : List ℚ) (sampleRate : Nat) :
    ∀ (l₁ l₂ : List (String × Model)) (b : String × Nat),
      detectLoop env sample sampleRate (l₁ ++ l₂) b =
        detectLoop env sample sampleRate l₂
          (detectLoop env sample sampleRate l₁ b) := by
  intro l₁
  induction l₁ with
  | nil => intro l₂ b; rfl
  | cons p rest ih =>
      intro l₂ b
      rcases p with ⟨plang, pm⟩
      rcases b with ⟨bl, n⟩
      rw [List.cons_append, detectLoop_cons, detectLoop_cons]
      split <;> rw [ih]

theorem detectLoop_snd_lt (env : Env) (sample : List ℚ) (sampleRate : Nat)
    (S : Nat) :
    ∀ (l : List (String × Model)) (bl : String) (n : Nat), n < S →
      (∀ p ∈ l, detectScore env p.2 sample sampleRate < S) →
      (detectLoop env sample sampleRate l (bl, n)).2 < S := by
  intro l
  induction l with
  | nil => intro bl n hn _; exact hn
  | cons p rest ih =>
      intro bl n hn h
      rcases p with ⟨plang, pm⟩
      rw [detectLoop_cons]
      split
      · exact ih plang _ (h (plang, pm) (by simp))
          (fun q hq => h q (by simp [hq]))
      · exact ih bl n hn (fun q hq => h q (by simp [hq]))

/-- C6: auto-detection uses only the first `min(len, 5 s)` samples, runs
every loaded model on that sample with errors swallowed (a failing model
scores 0), picks the loaded language with the longest stripped text
(earliest wins ties, a language must beat all earlier ones strictly), and
falls back to `"en"` when every model fails or strips to empty. -/
theorem C6_detect_language (env : Env) (st : EngineState) (audio : List ℚ)
    (sampleRate : Nat) :
    (∀ extra, sampleRate * 5 ≤ audio.length →
      detect_language env st (audio ++ extra) sampleRate =
        detect_language env st audio sampleRate) ∧
    ((∀ p ∈ st.models,
        detectScore env p.2 (detectSample audio sampleRate) sampleRate = 0) →
      detect_language env st audio sampleRate = "en") ∧
    (detect_language env st audio sampleRate = "en" ∨
      detect_language env st audio sampleRate ∈ st.models.map Prod.fst) ∧
    (∀ pre l m post, st.models = pre ++ (l, m) :: post →
      0 < detectScore env m (detectSample audio sampleRate) sampleRate →
      (∀ p ∈ pre, detectScore env p.2 (detectSample audio sampleRate) sampleRate <
        detectScore env m (detectSample audio sampleRate) sampleRate) →
      (∀ p ∈ post, detectScore env p.2 (detectSample audio sampleRate) sampleRate ≤
        detectScore env m (detectSample audio sampleRate) sampleRate) →
      detect_language env st audio sampleRate = l) := by
  refine ⟨?_, ?_, ?_, ?_⟩
  · intro extra hlen
    rw [detect_language_eq, detect_language_eq]
    have hs : detectSample (audio ++ extra) sampleRate =
        detectSample audio sampleRate := by
      unfold detectSample
      have h1 : min (audio ++ extra).length (sampleRate * 5) = sampleRate * 5 := by
        simp only [List.length_append]
        omega
      have h2 : min audio.length (sampleRate * 5) = sampleRate * 5 := by omega
      rw [h1, h2, List.take_append_of_le_length hlen]
    rw [hs]
  · intro h
    rw [detect_language_eq]
    rw [detectLoop_all_le env _ _ st.models "en" 0 (fun p hp => by rw [h p hp])]
  · rw [detect_language_eq]
    exact detectLoop_mem env _ _ st.models "en" 0
  · intro pre l m post hmodels hpos hpre hpost
    rw [detect_language_eq, hmodels, detectLoop_append]
    rcases hb : detectLoop env (detectSample audio sampleRate) sampleRate pre
      ("en", 0) with ⟨bl', n'⟩
    have hn' : n' < detectScore env m (detectSample audio sampleRate)
        sampleRate := by
      have := detectLoop_snd_lt env (detectSample audio sampleRate) sampleRate
        (detectScore env m (detectSample audio sampleRate) sampleRate)
        pre "en" 0 hpos (fun p hp => hpre p hp)
      rw [hb] at this
      exact this
    rw [detectLoop_cons, if_pos hn']
    rw [detectLoop_all_le env _ _ post l _ (fun q hq => hpost q hq)]

/-- A detection environment: the Russian model transcribes something, the
English model (and anything else) raises. -/
def envDetect : Env where
  load_vad := .ok ()
  load_model := fun name cpu => .ok (Model.base name cpu)
  model_recognize := fun m _ _ =>
    if m = Model.base "ru-model" false then .ok [⟨" privet ", none, none⟩]
    else .error "broken model"

/-- An engine with both models loaded, Russian first. -/
def stDetect : EngineState :=
  ⟨"ru-model", "en-model", "auto",
   [("ru", Model.base "ru-model" false), ("en", Model.base "en-model" false)],
   []⟩

theorem C6_witness :
    detect_language envDetect stDetect [0] 16000 = "ru" :=
  (C6_detect_language envDetect stDetect [0] 16000).2.2.2 []
    "ru" (Model.base "ru-model" false) [("en", Model.base "en-model" false)]
    rfl (by decide) (by decide) (by decide)

/-! ## C10: the auto-detection fallback is the constant "en" -/

/-- C10: whatever models are loaded, when every loaded model fails or
produces empty text on the detection sample the detector returns the
constant `"en"`; so a recognize with language `"auto"` in that situation
raises `No model loaded for language: en` whenever no English model is
stored (e.g. an engine initialized for Russian only). -/
theorem C10_auto_fallback_en (env : Env) (st : EngineState) (audio : List ℚ)
    (sampleRate : Nat) :
    ((∀ p ∈ st.models,
        detectScore env p.2 (detectSample audio sampleRate) sampleRate = 0) →
      detect_language env st audio sampleRate = "en") ∧
    ((∀ p ∈ st.models,
        detectScore env p.2 (detectSample audio sampleRate) sampleRate = 0) →
      st.models.lookup "en" = none →
      (recognize env st audio sampleRate (some "auto")).result =
        .error (.noModelLoaded "en")) := by
  have hfall : (∀ p ∈ st.models,
      detectScore env p.2 (detectSample audio sampleRate) sampleRate = 0) →
      detect_language env st audio sampleRate = "en" := by
    intro h
    rw [detect_language_eq]
    rw [detectLoop_all_le env _ _ st.models "en" 0 (fun p hp => by rw [h p hp])]
  refine ⟨hfall, ?_⟩
  intro h hen
  have hdet := hfall h
  simp [recognize, resolve_language, recognizeWith, hdet, hen]

/-- An engine initialized for Russian only, whose single model raises
during detection. -/
def stRuOnly : EngineState :=
  ⟨"gigaam-v3-rnnt", "whisper-base", "ru",
   [("ru", Model.base "broken" false)], []⟩

theorem C10_witness :
    (recognize envDetect stRuOnly [0] 16000 (some "auto")).result =
      .error (.noModelLoaded "en") :=
  (C10_auto_fallback_en envDetect stRuOnly [0] 16000).2 (by decide) rfl

/-! ## C8: CPU-only is terminal -/

theorem load_model_ok_inv {env : Env} {st : EngineState}
    {lang name : String} {fc : Bool} {st' : EngineState}
    (h : (load_model env st lang name fc).1 = .ok st') :
    st'.russianModelName = st.russianModelName ∧
    st'.englishModelName = st.englishModelName ∧
    st'.language = st.language ∧
    (st'.cpuOnlyLanguages = setAdd st.cpuOnlyLanguages lang ∨
      st'.cpuOnlyLanguages = setDiscard st.cpuOnlyLanguages lang) := by
  unfold load_model at h
  rcases h1 : env.load_model name fc with msg | m <;> simp only [h1] at h
  · by_cases hc : (fc || !(should_retry_with_cpu (Err.ext msg))) = true
    · rw [if_pos hc] at h
      exact Except.noConfusion h
    · rw [if_neg hc] at h
      rcases h2 : env.load_model name true with msg2 | m2 <;>
        simp only [h2] at h
      · exact Except.noConfusion h
      · injection h with h
        rw [← h]
        exact ⟨rfl, rfl, rfl, Or.inl rfl⟩
  · injection h with h
    rw [← h]
    cases fc
    · exact ⟨rfl, rfl, rfl, Or.inr rfl⟩
    · exact ⟨rfl, rfl, rfl, Or.inl rfl⟩

theorem load_model_cpu_persist {env : Env} {st : EngineState}
    {lang' name : String} {fc : Bool} {st' : EngineState} (lang : String)
    (hmem : lang ∈ st.cpuOnlyLanguages)
    (hclear : fc = false → lang' = lang →
      ∀ m, env.load_model name false ≠ .ok m)
    (h : (load_model env st lang' name fc).1 = .ok st') :
    lang ∈ st'.cpuOnlyLanguages := by
  unfold load_model at h
  rcases h1 : env.load_model name fc with msg | m <;> simp only [h1] at h
  · by_cases hc : (fc || !(should_retry_with_cpu (Err.ext msg))) = true
    · rw [if_pos hc] at h
      exact Except.noConfusion h
    · rw [if_neg hc] at h
      rcases h2 : env.load_model name true with msg2 | m2 <;>
        simp only [h2] at h
      · exact Except.noConfusion h
      · injection h with h
        rw [← h]
        exact mem_setAdd_of_mem _ hmem
  · injection h with h
    cases fc
    · by_cases hl : lang' = lang
      · exact absurd h1 (hclear rfl hl m)
      · rw [← h]
        show lang ∈ setDiscard st.cpuOnlyLanguages lang'
        exact mem_setDiscard.mpr ⟨hmem, fun hx => hl hx.symm⟩
    · rw [← h]
      show lang ∈ setAdd st.cpuOnlyLanguages lang'
      exact mem_setAdd_of_mem _ hmem

theorem recognizeWith_cpu_persist (env : Env) (st : EngineState)
    (audio : List ℚ) (sampleRate : Nat) (lang0 lang : String)
    (hmem : lang ∈ st.cpuOnlyLanguages) :
    lang ∈ (recognizeWith env st audio sampleRate lang0).state.cpuOnlyLanguages ∧
    (recognizeWith env st audio sampleRate lang0).state.russianModelName =
      st.russianModelName ∧
    (recognizeWith env st audio sampleRate lang0).state.englishModelName =
      st.englishModelName := by
  unfold recognizeWith
  rcases hlk : st.models.lookup lang0 with _ | model <;> simp only [hlk]
  · exact ⟨hmem, by simp, by simp⟩
  · rcases hr : run_recognition env model audio sampleRate lang0 with e | segs <;>
      simp only [hr]
    · split
      · exact ⟨hmem, by simp, by simp⟩
      · rcases hn : model_name_for_language st lang0 with e2 | name <;>
          simp only [hn]
        · exact ⟨hmem, by simp, by simp⟩
        · rcases hld : load_model env st lang0 name true with ⟨res, tr⟩
          rcases res with e2 | st' <;> simp only [hld]
          · exact ⟨hmem, by simp, by simp⟩
          · have hok : (load_model env st lang0 name true).1 = .ok st' := by
              rw [hld]
            have hper := load_model_cpu_persist lang hmem
              (fun hfc => by cases hfc) hok
            have hinv := load_model_ok_inv hok
            rcases hlk2 : st'.models.lookup lang0 with _ | model' <;>
              simp only [hlk2]
            · exact ⟨hper, by simp [hinv.1], by simp [hinv.2.1]⟩
            · exact ⟨hper, by simp [hinv.1], by simp [hinv.2.1]⟩
    · exact ⟨hmem, by simp, by simp⟩

theorem recognize_cpu_persist (env : Env) (st : EngineState)
    (audio : List ℚ) (sampleRate : Nat) (language : Option String)
    (lang : String) (hmem : lang ∈ st.cpuOnlyLanguages) :
    lang ∈ (recognize env st audio sampleRate language).state.cpuOnlyLanguages ∧
    (recognize env st audio sampleRate language).state.russianModelName =
      st.russianModelName ∧
    (recognize env st audio sampleRate language).state.englishModelName =
      st.englishModelName := by
  unfold recognize
  split
  · exact recognizeWith_cpu_persist env st audio sampleRate _ lang hmem
  · exact recognizeWith_cpu_persist env st audio sampleRate _ lang hmem

theorem initializeRun_cpu_persist (env : Env) (st : EngineState)
    (lang : String) (hmem : lang ∈ st.cpuOnlyLanguages)
    (hru : lang = "ru" → ∀ m, env.load_model st.russianModelName false ≠ .ok m)
    (hen : lang = "en" → ∀ m, env.load_model st.englishModelName false ≠ .ok m) :
    lang ∈ (initializeRun env st).2.cpuOnlyLanguages ∧
    (initializeRun env st).2.russianModelName = st.russianModelName ∧
    (initializeRun env st).2.englishModelName = st.englishModelName := by
  have hloadru : ∀ st₂, (load_model env st "ru" st.russianModelName false).1 =
      .ok st₂ →
      lang ∈ st₂.cpuOnlyLanguages ∧
      st₂.russianModelName = st.russianModelName ∧
      st₂.englishModelName = st.englishModelName := by
    intro st₂ hok
    have hinv := load_model_ok_inv hok
    refine ⟨?_, hinv.1, hinv.2.1⟩
    refine load_model_cpu_persist lang hmem ?_ hok
    intro _ hlglang m
    exact hru hlglang.symm m
  have hloaden : ∀ st₁ : EngineState, lang ∈ st₁.cpuOnlyLanguages →
      st₁.russianModelName = st.russianModelName →
      st₁.englishModelName = st.englishModelName →
      ∀ st₂, (load_model env st₁ "en" st₁.englishModelName false).1 = .ok st₂ →
        lang ∈ st₂.cpuOnlyLanguages ∧
        st₂.russianModelName = st.russianModelName ∧
        st₂.englishModelName = st.englishModelName := by
    intro st₁ hm hr he st₂ hok
    have hinv := load_model_ok_inv hok
    refine ⟨?_, hinv.1.trans hr, hinv.2.1.trans he⟩
    refine load_model_cpu_persist lang hm ?_ hok
    intro _ hlglang m
    rw [he]
    exact hen hlglang.symm m
  have phase2 : ∀ (loaded : List String) (st₁ : EngineState),
      lang ∈ st₁.cpuOnlyLanguages →
      st₁.russianModelName = st.russianModelName →
      st₁.englishModelName = st.englishModelName →
      lang ∈ ((if st.language = "en" ∨ st.language = "auto" then
          match load_model env st₁ "en" st₁.englishModelName false with
          | (.ok st'', _) => (Except.ok (loaded ++ [st₁.englishModelName]), st'')
          | (.error e, _) => (Except.error e, st₁)
        else (Except.ok loaded, st₁)) :
          Except Err (List String) × EngineState).2.cpuOnlyLanguages ∧
      ((if st.language = "en" ∨ st.language = "auto" then
          match load_model env st₁ "en" st₁.englishModelName false with
          | (.ok st'', _) => (Except.ok (loaded ++ [st₁.englishModelName]), st'')
          | (.error e, _) => (Except.error e, st₁)
        else (Except.ok loaded, st₁)) :
          Except Err (List String) × EngineState).2.russianModelName =
        st.russianModelName ∧
      ((if st.language = "en" ∨ st.language = "auto" then
          match load_model env st₁ "en" st₁.englishModelName false with
          | (.ok st'', _) => (Except.ok (loaded ++ [st₁.englishModelName]), st'')
          | (.error e, _) => (Except.error e, st₁)
        else (Except.ok loaded, st₁)) :
          Except Err (List String) × EngineState).2.englishModelName =
        st.englishModelName := by
    intro loaded st₁ hm hr he
    by_cases h2 : st.language = "en" ∨ st.language = "auto"
    · rw [if_pos h2]
      rcases hld2 : load_model env st₁ "en" st₁.englishModelName false
        with ⟨res2, tr2⟩
      rcases res2 with e | st₂ <;> simp only [hld2]
      · exact ⟨hm, by simp [hr], by simp [he]⟩
      · exact hloaden st₁ hm hr he st₂ (by rw [hld2])
    · rw [if_neg h2]
      exact ⟨hm, hr, he⟩
  simp only [initializeRun]
  rcases hv : env.load_vad with e | u <;> simp only [hv]
  · exact ⟨hmem, by simp, by simp⟩
  · by_cases h1 : st.language = "ru" ∨ st.language = "auto"
    · rw [if_pos h1]
      rcases hld : load_model env st "ru" st.russianModelName false
        with ⟨res, tr⟩
      rcases res with e | st₁ <;> simp only [hld]
      · exact ⟨hmem, by simp, by simp⟩
      · have f1 := hloadru st₁ (by rw [hld])
        exact phase2 [st.russianModelName] st₁ f1.1 f1.2.1 f1.2.2
    · rw [if_neg h1]
      exact phase2 [] st hmem rfl rfl

theorem set_language_cpu_persist (env : Env) (st : EngineState)
    (l lang : String) (hmem : lang ∈ st.cpuOnlyLanguages)
    (hru : lang = "ru" → ∀ m, env.load_model st.russianModelName false ≠ .ok m)
    (hen : lang = "en" → ∀ m, env.load_model st.englishModelName false ≠ .ok m) :
    lang ∈ (set_language env st l).2.cpuOnlyLanguages ∧
    (set_language env st l).2.russianModelName = st.russianModelName ∧
    (set_language env st l).2.englishModelName = st.englishModelName := by
  have hgen : ∀ (stc : EngineState) (lg nm : String),
      lang ∈ stc.cpuOnlyLanguages →
      stc.russianModelName = st.russianModelName →
      stc.englishModelName = st.englishModelName →
      (lang = lg → ∀ m, env.load_model nm false ≠ .ok m) →
      ∀ st₂, (load_model env stc lg nm false).1 = .ok st₂ →
        lang ∈ st₂.cpuOnlyLanguages ∧
        st₂.russianModelName = st.russianModelName ∧
        st₂.englishModelName = st.englishModelName := by
    intro stc lg nm hm hr he hcl st₂ hok
    have hinv := load_model_ok_inv hok
    exact ⟨load_model_cpu_persist lang hm (fun _ hx m => hcl hx.symm m) hok,
      hinv.1.trans hr, hinv.2.1.trans he⟩
  have phase2 : ∀ st₁ : EngineState, lang ∈ st₁.cpuOnlyLanguages →
      st₁.russianModelName = st.russianModelName →
      st₁.englishModelName = st.englishModelName →
      lang ∈ ((if (st₁.models.lookup "en").isNone = true then
          match load_model env st₁ "en" st₁.englishModelName false with
          | (.ok st'', _) => (Except.ok (), st'')
          | (.error e, _) => (Except.error e, st₁)
        else (Except.ok (), st₁)) :
          Except Err Unit × EngineState).2.cpuOnlyLanguages ∧
      ((if (st₁.models.lookup "en").isNone = true then
          match load_model env st₁ "en" st₁.englishModelName false with
          | (.ok st'', _) => (Except.ok (), st'')
          | (.error e, _) => (Except.error e, st₁)
        else (Except.ok (), st₁)) :
          Except Err Unit × EngineState).2.russianModelName =
        st.russianModelName ∧
      ((if (st₁.models.lookup "en").isNone = true then
          match load_model env st₁ "en" st₁.englishModelName false with
          | (.ok st'', _) => (Except.ok (), st'')
          | (.error e, _) => (Except.error e, st₁)
        else (Except.ok (), st₁)) :
          Except Err Unit × EngineState).2.englishModelName =
        st.englishModelName := by
    intro st₁ hm hr he
    by_cases c : (st₁.models.lookup "en").isNone = true
    · rw [if_pos c]
      rcases hld2 : load_model env st₁ "en" st₁.englishModelName false
        with ⟨res2, tr2⟩
      rcases res2 with e | st₂ <;> simp only [hld2]
      · exact ⟨hm, by simp [hr], by simp [he]⟩
      · exact hgen st₁ "en" st₁.englishModelName hm hr he
          (fun hx m => by rw [he]; exact hen hx m) st₂ (by rw [hld2])
    · rw [if_neg c]
      exact ⟨hm, hr, he⟩
  simp only [set_language]
  by_cases c1 : l = "ru" ∧ (st.models.lookup "ru").isNone = true
  · rw [if_pos c1]
    rcases hld : load_model env { st with language := l } "ru"
      st.russianModelName false with ⟨res, tr⟩
    rcases res with e | st₂ <;> simp only [hld]
    · exact ⟨hmem, by simp, by simp⟩
    · exact hgen { st with language := l } "ru" st.russianModelName hmem rfl
        rfl (fun hx m => hru hx m) st₂ (by rw [hld])
  · rw [if_neg c1]
    by_cases c2 : l = "en" ∧ (st.models.lookup "en").isNone = true
    · rw [if_pos c2]
      rcases hld : load_model env { st with language := l } "en"
        st.englishModelName false with ⟨res, tr⟩
      rcases res with e | st₂ <;> simp only [hld]
      · exact ⟨hmem, by simp, by simp⟩
      · exact hgen { st with language := l } "en" st.englishModelName hmem rfl
          rfl (fun hx m => hen hx m) st₂ (by rw [hld])
    · rw [if_neg c2]
      by_cases c3 : l = "auto"
      · rw [if_pos c3]
        by_cases cru : (st.models.lookup "ru").isNone = true
        · rw [if_pos cru]
          rcases hld : load_model env { st with language := l } "ru"
            st.russianModelName false with ⟨res, tr⟩
          rcases res with e | st₂ <;> simp only [hld]
          · exact ⟨hmem, by simp, by simp⟩
          · have f1 := hgen { st with language := l } "ru" st.russianModelName
              hmem rfl rfl (fun hx m => hru hx m) st₂ (by rw [hld])
            exact phase2 st₂ f1.1 f1.2.1 f1.2.2
        · rw [if_neg cru]
          exact phase2 { st with language := l } hmem rfl rfl
      · rw [if_neg c3]
        exact ⟨hmem, by simp, by simp⟩

theorem step_cpu_persist (env : Env) (st : EngineState) (op : Op)
    (lang : String) (hmem : lang ∈ st.cpuOnlyLanguages)
    (hru : lang = "ru" → ∀ m, env.load_model st.russianModelName false ≠ .ok m)
    (hen : lang = "en" → ∀ m, env.load_model st.englishModelName false ≠ .ok m) :
    lang ∈ (step env st op).cpuOnlyLanguages ∧
    (step env st op).russianModelName = st.russianModelName ∧
    (step env st op).englishModelName = st.englishModelName := by
  cases op with
  | initOp => exact initializeRun_cpu_persist env st lang hmem hru hen
  | recognizeOp audio rate language =>
      exact recognize_cpu_persist env st audio rate language lang hmem
  | setLanguageOp l => exact set_language_cpu_persist env st l lang hmem hru hen

theorem steps_cpu_persist (env : Env) (lang : String) :
    ∀ (ops : List Op) (st : EngineState), lang ∈ st.cpuOnlyLanguages →
      (lang = "ru" → ∀ m, env.load_model st.russianModelName false ≠ .ok m) →
      (lang = "en" → ∀ m, env.load_model st.englishModelName false ≠ .ok m) →
      lang ∈ (steps env st ops).cpuOnlyLanguages := by
  intro ops
  induction ops with
  | nil => intro st hm _ _; exact hm
  | cons op rest ih =>
      intro st hm hru hen
      have h := step_cpu_persist env st op lang hm hru hen
      show lang ∈ (steps env (step env st op) rest).cpuOnlyLanguages
      refine ih (step env st op) h.1 ?_ ?_
      · intro hx m
        rw [h.2.1]
        exact hru hx m
      · intro hx m
        rw [h.2.2]
        exact hen hx m

/-- C8: once a language is marked CPU-only, no sequence of engine
operations unmarks it as long as the environment never again succeeds in a
default-provider load of that language's model; the one exception is the
clearing behaviour itself: a load that succeeds without needing CPU
fallback clears the flag, while a forced-CPU load always sets it. -/
theorem C8_cpu_only_terminal (env : Env) (st : EngineState) (lang : String) :
    (∀ ops, lang ∈ st.cpuOnlyLanguages →
      (lang = "ru" → ∀ m, env.load_model st.russianModelName false ≠ .ok m) →
      (lang = "en" → ∀ m, env.load_model st.englishModelName false ≠ .ok m) →
      lang ∈ (steps env st ops).cpuOnlyLanguages) ∧
    (∀ name m st', env.load_model name false = .ok m →
      (load_model env st lang name false).1 = .ok st' →
      lang ∉ st'.cpuOnlyLanguages) ∧
    (∀ name st', (load_model env st lang name true).1 = .ok st' →
      lang ∈ st'.cpuOnlyLanguages) := by
  refine ⟨?_, ?_, ?_⟩
  · intro ops hm hru hen
    exact steps_cpu_persist env lang ops st hm hru hen
  · intro name m st' h1 h
    unfold load_model at h
    simp only [h1] at h
    injection h with h
    rw [← h]
    intro hcon
    have hd : lang ∈ setDiscard st.cpuOnlyLanguages lang := hcon
    exact (mem_setDiscard.mp hd).2 rfl
  · intro name st' h
    unfold load_model at h
    rcases h1 : env.load_model name true with msg | m <;> simp only [h1] at h
    · rw [if_pos (by simp)] at h
      exact Except.noConfusion h
    · injection h with h
      rw [← h]
      exact mem_setAdd_self _ _

/-- An engine whose Russian model is already in CPU-only mode. -/
def stCpuOnly : EngineState :=
  ⟨"gigaam-v3-rnnt", "whisper-base", "ru", [("ru", mCoreml)], ["ru"]⟩

theorem C8_witness :
    "ru" ∈ (steps envExternalData stCpuOnly
      [Op.initOp, Op.recognizeOp [] 16000 none,
        Op.setLanguageOp "en"]).cpuOnlyLanguages :=
  (C8_cpu_only_terminal envExternalData stCpuOnly "ru").1
    [Op.initOp, Op.recognizeOp [] 16000 none, Op.setLanguageOp "en"]
    (by decide) (fun _ m h => Except.noConfusion h)
    (fun _ m h => Except.noConfusion h)

/-! ## C5: full text and dropped empty segments -/

theorem run_recognition_ok_texts {env : Env} {m : Model} {a : List ℚ}
    {r : Nat} {l : String} {segs : List Seg}
    (h : run_recognition env m a r l = .ok segs) :
    ∀ s ∈ segs, pyStrip s.text = s.text ∧ s.text ≠ "" := by
  intro s hs
  unfold run_recognition at h
  rcases henv : env.model_recognize m a r with msg | raws <;>
    simp only [henv] at h
  · exact Except.noConfusion h
  · injection h with h
    rw [← h] at hs
    obtain ⟨raw, hrawmem, rfl⟩ := List.mem_map.mp hs
    have hfil := (List.mem_filter.mp hrawmem).2
    have hne : pyStrip (segText raw) ≠ "" := by simpa using hfil
    exact ⟨pyStrip_idem _, hne⟩

theorem recognizeWith_ok_texts {env : Env} {st : EngineState}
    {audio : List ℚ} {rate : Nat} {lang : String} {segs : List Seg}
    (h : (recognizeWith env st audio rate lang).result = .ok segs) :
    ∀ s ∈ segs, pyStrip s.text = s.text ∧ s.text ≠ "" := by
  unfold recognizeWith at h
  rcases hlk : st.models.lookup lang with _ | model <;> simp only [hlk] at h
  · exact Except.noConfusion h
  · rcases hr : run_recognition env model audio rate lang with e | segs' <;>
      simp only [hr] at h
    · split at h
      · exact Except.noConfusion h
      · rcases hn : model_name_for_language st lang with e2 | name <;>
          simp only [hn] at h
        · exact Except.noConfusion h
        · rcases hld : load_model env st lang name true with ⟨res, tr⟩
          rcases res with e2 | st' <;> simp only [hld] at h
          · exact Except.noConfusion h
          · rcases hlk2 : st'.models.lookup lang with _ | model' <;>
              simp only [hlk2] at h
            · exact Except.noConfusion h
            · exact run_recognition_ok_texts h
    · injection h with h
      rw [← h]
      exact run_recognition_ok_texts hr

theorem recognize_ok_texts {env : Env} {st : EngineState} {audio : List ℚ}
    {rate : Nat} {language : Option String} {segs : List Seg}
    (h : (recognize env st audio rate language).result = .ok segs) :
    ∀ s ∈ segs, pyStrip s.text = s.text ∧ s.text ≠ "" := by
  unfold recognize at h
  split at h <;> exact recognizeWith_ok_texts h

theorem mem_noSource_text {segs : List Seg} {s : TSeg}
    (h : s ∈ noSource segs) : ∃ s0 ∈ segs, s.text = s0.text := by
  obtain ⟨s0, h0, rfl⟩ := List.mem_map.mp h
  exact ⟨s0, h0, rfl⟩

theorem mem_with_source_text {segs : List Seg} {src : String} {s : TSeg}
    (h : s ∈ with_source segs src) :
    (∃ s0 ∈ segs, s.text = s0.text) ∧ s.source = some src := by
  obtain ⟨s0, h0, rfl⟩ := List.mem_map.mp h
  exact ⟨⟨s0, h0, rfl⟩, rfl⟩

/-- C5: whenever transcription succeeds, the full text is exactly the
segment texts joined with single spaces in final order, and every returned
segment has non-empty, already-stripped text (empty/whitespace-only
segments were discarded). -/
theorem C5_fulltext_nonempty (env : Env) (audio0 : AudioBuf) (rate0 : Nat)
    (language russianModel englishModel : String) (segs : List TSeg)
    (fullText : String)
    (h : (transcribeRun env audio0 rate0 language russianModel
      englishModel).result = .ok (segs, fullText)) :
    fullText = String.intercalate " " (segs.map (fun s => s.text)) ∧
    ∀ s ∈ segs, pyStrip s.text = s.text ∧ s.text ≠ "" := by
  simp only [transcribeRun, stereoRun] at h
  rcases hinit : initializeRun env
    ⟨russianModel, englishModel, language, [], []⟩ with ⟨res, stI⟩
  rcases res with e | loaded <;> simp only [hinit] at h
  · exact Except.noConfusion h
  · rcases haud : (resample_to_16k audio0 rate0).1 with s | chs <;>
      simp only [haud] at h
    · rcases hrec : (recognize env stI s (resample_to_16k audio0 rate0).2
        none).result with e | esegs <;> simp only [hrec] at h
      · exact Except.noConfusion h
      · injection h with h
        injection h with hsegs htext
        subst hsegs
        subst htext
        refine ⟨rfl, ?_⟩
        intro s hs
        obtain ⟨s0, h0, htxt⟩ := mem_noSource_text hs
        rw [htxt]
        exact recognize_ok_texts hrec s0 h0
    · rcases chs with _ | ⟨c0, rest⟩
      · -- zero channels: the `_` arm with empty getD defaults
        rcases hrec1 : (recognize env stI (([] : List (List ℚ)).getD 0 [])
          (resample_to_16k audio0 rate0).2 none).result with e | esegs1 <;>
          simp only [hrec1] at h
        · exact Except.noConfusion h
        · rcases hrec2 : (recognize env
            (recognize env stI (([] : List (List ℚ)).getD 0 [])
              (resample_to_16k audio0 rate0).2 none).state
            (([] : List (List ℚ)).getD 1 [])
            (resample_to_16k audio0 rate0).2 none).result with e | esegs2 <;>
            simp only [hrec2] at h
          · exact Except.noConfusion h
          · injection h with h
            injection h with hsegs htext
            subst hsegs
            subst htext
            refine ⟨rfl, ?_⟩
            intro s hs
            rw [List.mem_mergeSort] at hs
            rcases List.mem_append.mp hs with hs | hs
            · obtain ⟨⟨s0, h0, htxt⟩, -⟩ := mem_with_source_text hs
              rw [htxt]
              exact recognize_ok_texts hrec1 s0 h0
            · obtain ⟨⟨s0, h0, htxt⟩, -⟩ := mem_with_source_text hs
              rw [htxt]
              exact recognize_ok_texts hrec2 s0 h0
      · rcases rest with _ | ⟨c1, rest2⟩
        · -- exactly one channel: squeeze to mono
          rcases hrec : (recognize env stI c0 (resample_to_16k audio0 rate0).2
            none).result with e | esegs <;> simp only [hrec] at h
          · exact Except.noConfusion h
          · injection h with h
            injection h with hsegs htext
            subst hsegs
            subst htext
            refine ⟨rfl, ?_⟩
            intro s hs
            obtain ⟨s0, h0, htxt⟩ := mem_noSource_text hs
            rw [htxt]
            exact recognize_ok_texts hrec s0 h0
        · -- two or more channels
          rcases hrec1 : (recognize env stI ((c0 :: c1 :: rest2).getD 0 [])
            (resample_to_16k audio0 rate0).2 none).result with e | esegs1 <;>
            simp only [hrec1] at h
          · exact Except.noConfusion h
          · rcases hrec2 : (recognize env
              (recognize env stI ((c0 :: c1 :: rest2).getD 0 [])
                (resample_to_16k audio0 rate0).2 none).state
              ((c0 :: c1 :: rest2).getD 1 [])
              (resample_to_16k audio0 rate0).2 none).result with e | esegs2 <;>
              simp only [hrec2] at h
            · exact Except.noConfusion h
            · injection h with h
              injection h with hsegs htext
              subst hsegs
              subst htext
              refine ⟨rfl, ?_⟩
              intro s hs
              rw [List.mem_mergeSort] at hs
              rcases List.mem_append.mp hs with hs | hs
              · obtain ⟨⟨s0, h0, htxt⟩, -⟩ := mem_with_source_text hs
                rw [htxt]
                exact recognize_ok_texts hrec1 s0 h0
              · obtain ⟨⟨s0, h0, htxt⟩, -⟩ := mem_with_source_text hs
                rw [htxt]
                exact recognize_ok_texts hrec2 s0 h0

/-- An environment whose every model yields one segment with padded text. -/
def envSimple : Env where
  load_vad := .ok ()
  load_model := fun name cpu => .ok (Model.base name cpu)
  model_recognize := fun _ _ _ => .ok [⟨" hi ", some 0, some 1⟩]

theorem C5_witness :
    "hi" = String.intercalate " "
        (([⟨0, 1, "hi", "en", none⟩] : List TSeg).map (fun s => s.text)) ∧
    ∀ s ∈ ([⟨0, 1, "hi", "en", none⟩] : List TSeg),
      pyStrip s.text = s.text ∧ s.text ≠ "" :=
  C5_fulltext_nonempty envSimple (AudioBuf.mono [0]) 16000 "en" "g" "w"
    [⟨0, 1, "hi", "en", none⟩] "hi" rfl

/-! ## C4: stereo split, tagging, and global ordering -/

theorem charListLe_refl : ∀ as, charListLe as as = true := by
  intro as
  induction as with
  | nil => rfl
  | cons a t ih =>
      unfold charListLe
      rw [if_pos rfl]
      exact ih

theorem charListLe_total : ∀ as bs, (charListLe as bs || charListLe bs as) = true := by
  intro as
  induction as with
  | nil => intro bs; simp [charListLe]
  | cons a t ih =>
      intro bs
      cases bs with
      | nil => simp [charListLe]
      | cons b u =>
          unfold charListLe
          by_cases hab : a = b
          · rw [if_pos hab, if_pos hab.symm]
            exact ih u
          · rw [if_neg hab, if_neg (fun h => hab h.symm)]
            rcases lt_trichotomy a b with h | h | h
            · simp [h]
            · exact absurd h hab
            · simp [h]

theorem charListLe_trans : ∀ as bs cs, charListLe as bs = true →
    charListLe bs cs = true → charListLe as cs = true := by
  intro as
  induction as with
  | nil => intro bs cs _ _; rfl
  | cons a t ih =>
      intro bs cs h1 h2
      cases bs with
      | nil => simp [charListLe] at h1
      | cons b u =>
          cases cs with
          | nil => simp [charListLe] at h2
          | cons c v =>
              unfold charListLe at h1 h2 ⊢
              by_cases hab : a = b <;> by_cases hbc : b = c
              · rw [if_pos hab] at h1
                rw [if_pos hbc] at h2
                rw [if_pos (hab.trans hbc)]
                exact ih u v h1 h2
              · rw [if_pos hab] at h1
                rw [if_neg hbc] at h2
                have hac : a ≠ c := by rw [hab]; exact hbc
                rw [if_neg hac, hab]
                exact h2
              · rw [if_neg hab] at h1
                rw [if_pos hbc] at h2
                have hac : a ≠ c := by rw [← hbc]; exact hab
                rw [if_neg hac, ← hbc]
                exact h1
              · rw [if_neg hab] at h1
                rw [if_neg hbc] at h2
                have hlt := lt_trans (of_decide_eq_true h1) (of_decide_eq_true h2)
                rw [if_neg (ne_of_lt hlt)]
                exact decide_eq_true hlt

theorem strLe_refl (a : String) : strLe a a = true := charListLe_refl a.data

theorem strLe_total (a b : String) : (strLe a b || strLe b a) = true :=
  charListLe_total a.data b.data

theorem strLe_trans (a b c : String) (h1 : strLe a b = true)
    (h2 : strLe b c = true) : strLe a c = true :=
  charListLe_trans a.data b.data c.data h1 h2

theorem tsegLe_total (a b : TSeg) : (tsegLe a b || tsegLe b a) = true := by
  unfold tsegLe
  by_cases hab : a.start = b.start
  · rw [if_neg (not_not_intro hab), if_neg (not_not_intro hab.symm)]
    by_cases sab : a.stop = b.stop
    · rw [if_neg (not_not_intro sab), if_neg (not_not_intro sab.symm)]
      exact strLe_total _ _
    · rw [if_pos sab, if_pos (fun h => sab h.symm)]
      rcases lt_trichotomy a.stop b.stop with h | h | h
      · simp [h]
      · exact absurd h sab
      · simp [h]
  · rw [if_pos hab, if_pos (fun h => hab h.symm)]
    rcases lt_trichotomy a.start b.start with h | h | h
    · simp [h]
    · exact absurd h hab
    · simp [h]

theorem tsegLe_trans (a b c : TSeg) (h1 : tsegLe a b = true)
    (h2 : tsegLe b c = true) : tsegLe a c = true := by
  unfold tsegLe at h1 h2 ⊢
  by_cases hab : a.start = b.start
  · by_cases hbc : b.start = c.start
    case neg =>
      rw [if_pos hbc] at h2
      have hlt : b.start < c.start := of_decide_eq_true h2
      have hac : a.start < c.start := hab ▸ hlt
      rw [if_pos (ne_of_lt hac)]
      exact decide_eq_true hac
    case pos =>
      have hac : a.start = c.start := hab.trans hbc
      rw [if_neg (not_not_intro hab)] at h1
      rw [if_neg (not_not_intro hbc)] at h2
      rw [if_neg (not_not_intro hac)]
      by_cases sab : a.stop = b.stop
      · by_cases sbc : b.stop = c.stop
        · have sac : a.stop = c.stop := sab.trans sbc
          rw [if_neg (not_not_intro sab)] at h1
          rw [if_neg (not_not_intro sbc)] at h2
          rw [if_neg (not_not_intro sac)]
          exact strLe_trans _ _ _ h1 h2
        · rw [if_neg (not_not_intro sab)] at h1
          rw [if_pos sbc] at h2
          have hlt : b.stop < c.stop := of_decide_eq_true h2
          have sac : a.stop ≠ c.stop := by rw [sab]; exact sbc
          rw [if_pos sac, sab]
          exact h2
      · by_cases sbc : b.stop = c.stop
        · rw [if_pos sab] at h1
          have sac : a.stop ≠ c.stop := by rw [← sbc]; exact sab
          rw [if_pos sac, ← sbc]
          exact h1
        · rw [if_pos sab] at h1
          rw [if_pos sbc] at h2
          have hlt := lt_trans (of_decide_eq_true h1) (of_decide_eq_true h2)
          rw [if_pos (ne_of_lt hlt)]
          exact decide_eq_true hlt
  · by_cases hbc : b.start = c.start
    · rw [if_pos hab] at h1
      have hlt : a.start < b.start := of_decide_eq_true h1
      have hac : a.start < c.start := hbc ▸ hlt
      rw [if_pos (ne_of_lt hac)]
      exact decide_eq_true hac
    · rw [if_pos hab] at h1
      rw [if_pos hbc] at h2
      have hac := lt_trans (of_decide_eq_true h1) (of_decide_eq_true h2)
      rw [if_pos (ne_of_lt hac)]
      exact decide_eq_true hac

/-- C4: transcribing a two-channel buffer (already at 16 kHz, N samples per
channel) recognizes channel 0 and channel 1 independently as 1-D buffers,
tags channel 0 segments with the mic label and channel 1 segments with the
speaker label, and returns their concatenation stably sorted by
`(start, end, source)` ascending. -/
theorem C4_stereo_merge (env : Env) (c0 c1 : List ℚ) (N : Nat)
    (language russianModel englishModel : String) (stI : EngineState)
    (loaded : List String) (segs1 segs2 : List Seg)
    (_hlen0 : c0.length = N) (_hlen1 : c1.length = N)
    (hinit : initializeRun env ⟨russianModel, englishModel, language, [], []⟩ =
      (.ok loaded, stI))
    (h1 : (recognize env stI c0 16000 none).result = .ok segs1)
    (h2 : (recognize env (recognize env stI c0 16000 none).state c1 16000
      none).result = .ok segs2) :
    (transcribeRun env (AudioBuf.multi [c0, c1]) 16000 language russianModel
        englishModel).result =
      .ok ((with_source segs1 MIC_SOURCE ++
          with_source segs2 SPEAKER_SOURCE).mergeSort tsegLe,
        String.intercalate " "
          (((with_source segs1 MIC_SOURCE ++
            with_source segs2 SPEAKER_SOURCE).mergeSort tsegLe).map
              (fun s => s.text))) ∧
    ((with_source segs1 MIC_SOURCE ++
        with_source segs2 SPEAKER_SOURCE).mergeSort tsegLe).Pairwise
      (fun a b => tsegLe a b = true) ∧
    ((with_source segs1 MIC_SOURCE ++
        with_source segs2 SPEAKER_SOURCE).mergeSort tsegLe).Perm
      (with_source segs1 MIC_SOURCE ++ with_source segs2 SPEAKER_SOURCE) ∧
    (∀ s ∈ with_source segs1 MIC_SOURCE, s.source = some MIC_SOURCE ∧
      ∃ s0 ∈ segs1, s.text = s0.text) ∧
    (∀ s ∈ with_source segs2 SPEAKER_SOURCE, s.source = some SPEAKER_SOURCE ∧
      ∃ s0 ∈ segs2, s.text = s0.text) := by
  refine ⟨?_, ?_, ?_, ?_, ?_⟩
  · have hres : resample_to_16k (AudioBuf.multi [c0, c1]) 16000 =
        (AudioBuf.multi [c0, c1], 16000) := rfl
    simp only [transcribeRun, stereoRun, hres, hinit, List.getD_cons_zero,
      List.getD_cons_succ, h1, h2]
  · exact List.sorted_mergeSort (fun a b c => tsegLe_trans a b c)
      (fun a b => tsegLe_total a b) _
  · exact List.mergeSort_perm _ _
  · intro s hs
    have h := mem_with_source_text hs
    exact ⟨h.2, h.1⟩
  · intro s hs
    have h := mem_with_source_text hs
    exact ⟨h.2, h.1⟩

theorem C4_witness :
    ((with_source [⟨0, 1, "hi", "en"⟩] MIC_SOURCE ++
        with_source [⟨0, 1, "hi", "en"⟩] SPEAKER_SOURCE).mergeSort
      tsegLe).Pairwise (fun a b => tsegLe a b = true) :=
  (C4_stereo_merge envSimple [0] [1] 1 "en" "g" "w"
      ⟨"g", "w", "en", [("en", Model.withVad (Model.base "w" false))], []⟩
      ["w"] [⟨0, 1, "hi", "en"⟩] [⟨0, 1, "hi", "en"⟩]
      rfl rfl rfl rfl rfl).2.1

/-! ## C9: more than two channels -/

theorem stereoRun_result_warn_free (env : Env) (st : EngineState)
    (mic spk : List ℚ) (rate : Nat) (w w' : Bool) :
    (stereoRun env st mic spk rate w).result =
      (stereoRun env st mic spk rate w').result := by
  unfold stereoRun
  rcases h1 : (recognize env st mic rate none).result with e | s1 <;>
    simp only [h1]
  rcases h2 : (recognize env (recognize env st mic rate none).state spk rate
    none).result with e | s2 <;> simp only [h2]

theorem stereoRun_warn (env : Env) (st : EngineState) (mic spk : List ℚ)
    (rate : Nat) (w : Bool) :
    (stereoRun env st mic spk rate w).warnedExtraChannels = w := by
  unfold stereoRun
  rcases h1 : (recognize env st mic rate none).result with e | s1 <;>
    simp only [h1]
  rcases h2 : (recognize env (recognize env st mic rate none).state spk rate
    none).result with e | s2 <;> simp only [h2]

/-- C9: a buffer with more than two channels is accepted; its transcription
result equals that of the same buffer with every channel beyond the second
removed, and (whenever the engine initializes) the extra-channels warning
is emitted for it and not for the two-channel buffer. -/
theorem C9_extra_channels (env : Env) (chs : List (List ℚ)) (rate0 : Nat)
    (language russianModel englishModel : String) (hlen : 2 < chs.length) :
    (transcribeRun env (AudioBuf.multi chs) rate0 language russianModel
        englishModel).result =
      (transcribeRun env (AudioBuf.multi (chs.take 2)) rate0 language
        russianModel englishModel).result ∧
    (∀ loaded stI,
      initializeRun env ⟨russianModel, englishModel, language, [], []⟩ =
        (.ok loaded, stI) →
      (transcribeRun env (AudioBuf.multi chs) rate0 language russianModel
        englishModel).warnedExtraChannels = true ∧
      (transcribeRun env (AudioBuf.multi (chs.take 2)) rate0 language
        russianModel englishModel).warnedExtraChannels = false) := by
  rcases chs with _ | ⟨c0, chs⟩
  · simp at hlen
  rcases chs with _ | ⟨c1, chs⟩
  · simp at hlen
  rcases chs with _ | ⟨c2, rest⟩
  · simp at hlen
  constructor
  · by_cases hrate : rate0 = 16000
    · subst hrate
      rcases hinit : initializeRun env
        ⟨russianModel, englishModel, language, [], []⟩ with ⟨res, stI⟩
      rcases res with e | loaded <;>
        simp only [transcribeRun, resample_to_16k, if_pos rfl, hinit,
          List.take_succ_cons, List.take_zero, List.getD_cons_zero,
          List.getD_cons_succ]
      exact stereoRun_result_warn_free env stI _ _ _ _ _
    · rcases hinit : initializeRun env
        ⟨russianModel, englishModel, language, [], []⟩ with ⟨res, stI⟩
      rcases res with e | loaded <;>
        simp only [transcribeRun, resample_to_16k, if_neg hrate, hinit,
          AudioBuf.frames, List.take_succ_cons, List.take_zero,
          List.head?_cons, Option.map_some, Option.getD_some, List.map_cons,
          List.getD_cons_zero, List.getD_cons_succ]
      exact stereoRun_result_warn_free env stI _ _ _ _ _
  · intro loaded stI hinit
    constructor
    · by_cases hrate : rate0 = 16000
      · subst hrate
        simp only [transcribeRun, resample_to_16k, if_pos rfl, hinit,
          List.getD_cons_zero, List.getD_cons_succ]
        refine (stereoRun_warn env stI _ _ _ _).trans ?_
        simp only [List.length_cons, decide_eq_true_eq]
        omega
      · simp only [transcribeRun, resample_to_16k, if_neg hrate, hinit,
          AudioBuf.frames, List.head?_cons, Option.map_some, Option.getD_some,
          List.map_cons, List.getD_cons_zero, List.getD_cons_succ]
        refine (stereoRun_warn env stI _ _ _ _).trans ?_
        simp only [List.length_cons, List.length_map, decide_eq_true_eq]
        omega
    · by_cases hrate : rate0 = 16000
      · subst hrate
        simp only [transcribeRun, resample_to_16k, if_pos rfl, hinit,
          List.take_succ_cons, List.take_zero, List.getD_cons_zero,
          List.getD_cons_succ]
        refine (stereoRun_warn env stI _ _ _ _).trans ?_
        simp
      · simp only [transcribeRun, resample_to_16k, if_neg hrate, hinit,
          AudioBuf.frames, List.take_succ_cons, List.take_zero,
          List.head?_cons, Option.map_some, Option.getD_some, List.map_cons,
          List.getD_cons_zero, List.getD_cons_succ]
        refine (stereoRun_warn env stI _ _ _ _).trans ?_
        simp

theorem C9_witness :
    (transcribeRun envSimple (AudioBuf.multi [[0], [1], [2]]) 16000 "en" "g"
        "w").result =
      (transcribeRun envSimple (AudioBuf.multi [[0], [1]]) 16000 "en" "g"
        "w").result ∧
    (transcribeRun envSimple (AudioBuf.multi [[0], [1], [2]]) 16000 "en" "g"
        "w").warnedExtraChannels = true :=
  ⟨(C9_extra_channels envSimple [[0], [1], [2]] 16000 "en" "g" "w"
      (by decide)).1,
   ((C9_extra_channels envSimple [[0], [1], [2]] 16000 "en" "g" "w"
      (by decide)).2 ["w"]
      ⟨"g", "w", "en", [("en", Model.withVad (Model.base "w" false))], []⟩
      rfl).1⟩
